import Mathlib

/-!
Shallow embedding of `osiris_utils/utils.py` — the numerical reduction
utilities for OSIRIS post-processing: the 2D Courant limit, run-time and
file-size estimation, the transverse average of a 2D field, and the
right-to-left cumulative Simpson line integral.

Python floats are modelled as exact rationals (ℚ) for the list-processing
routines and as reals (ℝ) for the square-root-based Courant formula.
A numpy array is modelled as a shape together with its row-major data.
Functions that can raise return `Except Err`.
-/

/-- Error conditions surfaced by the Python code.

* `shapeError` models the explicit `raise ValueError(...)` statements guarding
  the array rank in `transverse_average` and `integrate` (what the spec calls
  `ShapeError`).
* `zeroDivision` models the Python runtime's `ZeroDivisionError`, raised by
  expressions such as `1/dx**2` at `dx = 0` — there is no explicit guard in
  the code.
* `invalidArgument` models the spec's `InvalidArgument` condition; no code
  path in `utils.py` raises it. -/
inductive Err where
  | shapeError : Err
  | zeroDivision : Err
  | invalidArgument : Err
  deriving DecidableEq, Repr

/-- A dense numpy-style array: a shape (list of axis extents, its length is
the rank) together with the row-major data. -/
structure NDArray where
  shape : List ℕ
  data : List ℚ
  deriving DecidableEq, Repr

/-- `courant2D(dx, dy)` from `utils.py`:
`dt = 1 / (np.sqrt(1/dx**2 + 1/dy**2)); return dt`.
The expression `1/dx**2` (resp. `1/dy**2`) raises `ZeroDivisionError` when the
spacing is zero; no other validation is performed, so negative spacings flow
straight into the formula. -/
noncomputable def courant2D (dx dy : ℝ) : Except Err ℝ :=
  if dx = 0 ∨ dy = 0 then .error .zeroDivision
  else .ok (1 / Real.sqrt (1 / dx ^ 2 + 1 / dy ^ 2))

/-- `time_estimation(n_cells, ppc, push_time, t_steps, n_cpu, hours=False)`
from `utils.py`: `time = (n_cells*ppc*push_time*t_steps)/n_cpu`, divided by
3600 when `hours` is true. Division by `n_cpu = 0` raises the runtime's
`ZeroDivisionError`; there is no explicit guard. -/
def time_estimation (n_cells ppc push_time t_steps n_cpu : ℚ)
    (hours : Bool) : Except Err ℚ :=
  if n_cpu = 0 then .error .zeroDivision
  else
    let time := n_cells * ppc * push_time * t_steps / n_cpu
    if hours then .ok (time / 3600) else .ok time

/-- `filesize_estimation(n_gridpoints)` from `utils.py`:
`n_gridpoints*4/(1024**2)`. -/
def filesize_estimation (n_gridpoints : ℚ) : ℚ :=
  n_gridpoints * 4 / 1024 ^ 2

/-- `transverse_average(data)` from `utils.py`: raises
`ValueError("The input data must be a 2D array.")` unless the rank is exactly
2, and otherwise returns `np.mean(data, axis=1)` — for each row index `i`,
the sum of row `i` divided by the number of columns. -/
def transverse_average (a : NDArray) : Except Err NDArray :=
  if a.shape.length ≠ 2 then .error .shapeError
  else
    let r := a.shape.getD 0 0
    let c := a.shape.getD 1 0
    .ok ⟨[r], (List.range r).map fun i => ((a.data.drop (i * c)).take c).sum / (c : ℚ)⟩

/-- Integral of the interpolating quadratic over one subinterval
`[x_j, x_{j+1}]` of an equally spaced sample sequence `y`, as used by the
composite cumulative Simpson scheme: an even-indexed subinterval that is not
the last uses the first-half Simpson formula on the sample triplet
`(j, j+1, j+2)`, `dx/3 * (5/4 y_j + 2 y_{j+1} - 1/4 y_{j+2})`; an odd-indexed
subinterval, and always the last subinterval, uses the second-half formula on
the triplet `(j-1, j, j+1)`, `dx/3 * (-1/4 y_{j-1} + 2 y_j + 5/4 y_{j+1})`. -/
def simpson_subinterval (y : List ℚ) (dx : ℚ) (j : ℕ) : ℚ :=
  let g : ℕ → ℚ := fun i => y.getD i 0
  if j + 2 = y.length ∨ j % 2 = 1 then
    dx / 3 * (-(g (j - 1)) / 4 + 2 * g j + 5 * g (j + 1) / 4)
  else
    dx / 3 * (5 * g j / 4 + 2 * g (j + 1) - g (j + 2) / 4)

/-- Modelled from the spec: `scipy.integrate.cumulative_simpson(y, dx=dx,
initial=0)` is an external library routine whose source is not under `src/`.
Following the spec's description, it returns the cumulative integral of the
piecewise-quadratic (composite Simpson) interpolant of the equally spaced
samples, with the accumulator starting at 0 at the first sample: entry `i` is
the sum of the subinterval integrals `simpson_subinterval` for the
subintervals before `i`. Per the spec's edge cases, a length-1 input yields
the single-element `[0]` and a length-2 input degrades to the trapezoidal
estimate. -/
def cumulative_simpson (y : List ℚ) (dx : ℚ) : List ℚ :=
  if y.length = 0 then []
  else if y.length = 1 then [0]
  else if y.length = 2 then [0, dx * (y.getD 0 0 + y.getD 1 0) / 2]
  else (List.range y.length).map fun i =>
    ((List.range i).map (simpson_subinterval y dx)).sum

/-- `integrate(array, dx)` from `utils.py`: raises `ValueError` unless the
rank is exactly 1; otherwise
`flip_array = np.flip(array)`,
`int = -scipy.integrate.cumulative_simpson(flip_array, dx=dx, initial=0)`,
`return np.flip(int)`. -/
def integrate (a : NDArray) (dx : ℚ) : Except Err NDArray :=
  if a.shape.length ≠ 1 then .error .shapeError
  else
    let flip_array := a.data.reverse
    let int := (cumulative_simpson flip_array dx).map Neg.neg
    .ok ⟨[int.length], int.reverse⟩

/-- Modelled from the spec: the DiagnosticsPipeline entry point
`longitudinal_profile(field, dx)` is described in the spec but has no
function of its own under `src/`; per the spec it is
`FieldReducer.transverse_average(field)` then
`LineIntegrator.integrate(result, dx)`, propagating the first failure from
either stage unchanged. -/
def longitudinal_profile (field : NDArray) (dx : ℚ) : Except Err NDArray :=
  match transverse_average field with
  | .error e => .error e
  | .ok p => integrate p dx

/-- Row `i` of a row-major 2D array with `c` columns. -/
def rowOf (a : NDArray) (c i : ℕ) : List ℚ :=
  (a.data.drop (i * c)).take c

/-- Arithmetic mean of a list of rationals. -/
def mean (xs : List ℚ) : ℚ :=
  xs.sum / (xs.length : ℚ)

/-! ## Helper lemmas about the cumulative Simpson scheme -/

/-- The cumulative Simpson integral has one output entry per input sample. -/
theorem cumulative_simpson_length (y : List ℚ) (dx : ℚ) :
    (cumulative_simpson y dx).length = y.length := by
  unfold cumulative_simpson
  split_ifs with h0 h1 h2
  · simp [h0]
  · simp [h1]
  · simp [h2]
  · simp

/-- On a nonempty input the cumulative Simpson integral starts at the
accumulator value 0. -/
theorem cumulative_simpson_head (y : List ℚ) (dx : ℚ) (h : 1 ≤ y.length) :
    (cumulative_simpson y dx).head? = some 0 := by
  unfold cumulative_simpson
  split_ifs with h0 h1 h2
  · omega
  · rfl
  · rfl
  · obtain ⟨m, hm⟩ : ∃ m, y.length = m + 1 := ⟨y.length - 1, by omega⟩
    rw [hm, List.range_succ_eq_map]
    simp

/-! ## Claim theorems -/

/-- C4: `transverse_average` raises the shape error on every input whose rank
is not exactly 2, and `integrate` raises the shape error on every input whose
rank is not exactly 1; in both cases the error is the immediate result, so no
computed value is returned alongside it. -/
theorem rank_checks_raise_shape_error (a : NDArray) (dx : ℚ) :
    (a.shape.length ≠ 2 → transverse_average a = .error .shapeError) ∧
    (a.shape.length ≠ 1 → integrate a dx = .error .shapeError) := by
  constructor
  · intro h
    unfold transverse_average
    rw [if_pos h]
  · intro h
    unfold integrate
    rw [if_pos h]

theorem rank_checks_raise_shape_error_witness :
    transverse_average ⟨[3], [1, 2, 3]⟩ = .error .shapeError ∧
    transverse_average ⟨[1, 1, 2], [1, 2]⟩ = .error .shapeError ∧
    integrate ⟨[2, 2], [1, 2, 3, 4]⟩ 1 = .error .shapeError := by
  refine ⟨(rank_checks_raise_shape_error ⟨[3], [1, 2, 3]⟩ 1).1 (by decide),
    (rank_checks_raise_shape_error ⟨[1, 1, 2], [1, 2]⟩ 1).1 (by decide),
    (rank_checks_raise_shape_error ⟨[2, 2], [1, 2, 3, 4]⟩ 1).2 (by decide)⟩

/-- C5 counterexample: `courant2D` does not raise anything at `dy = -1`
(with `dx = 1`); it returns the value `1 / sqrt 2`, so in particular it does
not fail with the spec's `InvalidArgument` condition there. -/
theorem courant2D_negative_spacing_ok :
    courant2D 1 (-1) = .ok (1 / Real.sqrt 2) ∧
    (Except.ok (1 / Real.sqrt 2) : Except Err ℝ) ≠ .error .invalidArgument := by
  constructor
  · unfold courant2D
    rw [if_neg (by norm_num)]
    norm_num
  · simp

/-- C5 amended: `courant2D` performs no argument validation: it fails — with
the runtime's division-by-zero error, not the spec's `InvalidArgument` — iff
one of the spacings is zero; a negative spacing is accepted and flows into
the formula. -/
theorem courant2D_no_invalid_argument (dx dy : ℝ) :
    (courant2D dx dy = .error .zeroDivision ↔ dx = 0 ∨ dy = 0) ∧
    courant2D dx dy ≠ .error .invalidArgument := by
  unfold courant2D
  by_cases h : dx = 0 ∨ dy = 0
  · rw [if_pos h]
    exact ⟨⟨fun _ => h, fun _ => rfl⟩, by simp⟩
  · rw [if_neg h]
    exact ⟨⟨fun hc => absurd hc (by simp), fun hc => absurd hc h⟩, by simp⟩

/-- C6: for positive spacings `courant2D` returns
`1 / sqrt(1/dx² + 1/dy²)`, that value is strictly positive, and at equal
spacings the result is `dx / sqrt 2`. -/
theorem courant2D_formula (dx dy : ℝ) (hx : 0 < dx) (hy : 0 < dy) :
    courant2D dx dy = .ok (1 / Real.sqrt (1 / dx ^ 2 + 1 / dy ^ 2)) ∧
    0 < 1 / Real.sqrt (1 / dx ^ 2 + 1 / dy ^ 2) ∧
    courant2D dx dx = .ok (dx / Real.sqrt 2) := by
  have hx0 : dx ≠ 0 := ne_of_gt hx
  have hy0 : dy ≠ 0 := ne_of_gt hy
  refine ⟨?_, ?_, ?_⟩
  · unfold courant2D
    rw [if_neg (by push_neg; exact ⟨hx0, hy0⟩)]
  · have hpos : 0 < 1 / dx ^ 2 + 1 / dy ^ 2 := by positivity
    have hs := Real.sqrt_pos.mpr hpos
    positivity
  · unfold courant2D
    rw [if_neg (by push_neg; exact ⟨hx0, hx0⟩)]
    have h2 : 1 / dx ^ 2 + 1 / dx ^ 2 = 2 / dx ^ 2 := by ring
    rw [h2, Real.sqrt_div (by norm_num) (dx ^ 2), Real.sqrt_sq hx.le,
      one_div_div]

theorem courant2D_formula_witness :
    courant2D 1 1 = .ok (1 / Real.sqrt (1 / (1 : ℝ) ^ 2 + 1 / (1 : ℝ) ^ 2)) ∧
    0 < 1 / Real.sqrt (1 / (1 : ℝ) ^ 2 + 1 / (1 : ℝ) ^ 2) ∧
    courant2D 1 1 = .ok ((1 : ℝ) / Real.sqrt 2) :=
  courant2D_formula 1 1 one_pos one_pos

/-- C7 counterexample: at the spec's scenario
`n_cells = 10⁶, ppc = 100, push_time = 10⁻⁸, t_steps = 1000, n_cpu = 0`
`time_estimation` fails with the unguarded division-by-zero error, not the
spec's `InvalidArgument`; and a negative `n_cpu` is not rejected at all:
`n_cpu = -1` returns an ordinary value. -/
theorem time_estimation_unguarded_zero_division :
    time_estimation 1000000 100 (1 / 100000000) 1000 0 false
      = .error .zeroDivision ∧
    (Except.error Err.zeroDivision : Except Err ℚ) ≠ .error .invalidArgument ∧
    time_estimation 1 1 1 1 (-1) false = .ok (-1) := by
  refine ⟨rfl, by simp, by norm_num [time_estimation]⟩

/-- C7 amended: `time_estimation` performs no argument validation: it fails —
with the runtime's division-by-zero error, never the spec's
`InvalidArgument` — iff `n_cpu` is exactly zero; negative processor counts
are accepted. -/
theorem time_estimation_no_invalid_argument
    (n_cells ppc push_time t_steps n_cpu : ℚ) (hours : Bool) :
    (time_estimation n_cells ppc push_time t_steps n_cpu hours
        = .error .zeroDivision ↔ n_cpu = 0) ∧
    time_estimation n_cells ppc push_time t_steps n_cpu hours
        ≠ .error .invalidArgument := by
  unfold time_estimation
  by_cases h : n_cpu = 0
  · rw [if_pos h]
    exact ⟨⟨fun _ => h, fun _ => rfl⟩, by simp⟩
  · rw [if_neg h]
    cases hours <;> simp [h]

/-- C8: for a strictly positive processor count `time_estimation` returns
`(n_cells * ppc * push_time * t_steps) / n_cpu` seconds, divided by 3600 when
the hours flag is set; and `filesize_estimation` returns
`n_gridpoints * 4 / 1024²`, so one mebi-gridpoint maps to `4.0`. -/
theorem estimation_formulas (n_cells ppc push_time t_steps n_cpu g : ℚ)
    (h : 0 < n_cpu) :
    time_estimation n_cells ppc push_time t_steps n_cpu false
      = .ok (n_cells * ppc * push_time * t_steps / n_cpu) ∧
    time_estimation n_cells ppc push_time t_steps n_cpu true
      = .ok (n_cells * ppc * push_time * t_steps / n_cpu / 3600) ∧
    filesize_estimation g = g * 4 / 1024 ^ 2 ∧
    filesize_estimation (1024 * 1024) = 4 := by
  have hn : n_cpu ≠ 0 := ne_of_gt h
  refine ⟨?_, ?_, rfl, by norm_num [filesize_estimation]⟩
  · unfold time_estimation
    rw [if_neg hn]
    rfl
  · unfold time_estimation
    rw [if_neg hn]
    rfl

theorem estimation_formulas_witness :
    time_estimation 100 10 (1 / 1000) 1000 1 false = .ok 1000 ∧
    time_estimation 100 10 (1 / 1000) 1000 1 true = .ok (1000 / 3600) ∧
    filesize_estimation (1024 * 1024) = 4 := by
  have h := estimation_formulas 100 10 (1 / 1000) 1000 1 (1024 * 1024)
    one_pos
  refine ⟨?_, ?_, h.2.2.2⟩
  · rw [h.1]; norm_num
  · rw [h.2.1]; norm_num

/-- C1: on a rank-1 profile, `integrate` returns exactly the array obtained
by reversing the input, taking the cumulative composite-Simpson integral of
the reversed sequence with step `dx` and the accumulator starting at 0 at its
first (rightmost-original) sample, negating every value, and reversing the
result back to the original order. -/
theorem integrate_eq_reverse_neg_cumulative_simpson (a : NDArray) (dx : ℚ)
    (h : a.shape.length = 1) :
    integrate a dx
      = .ok ⟨[a.data.length],
          ((cumulative_simpson a.data.reverse dx).map Neg.neg).reverse⟩ := by
  unfold integrate
  rw [if_neg (by omega)]
  have hlen : ((cumulative_simpson a.data.reverse dx).map Neg.neg).length
      = a.data.length := by
    rw [List.length_map, cumulative_simpson_length, List.length_reverse]
  show (Except.ok
      (NDArray.mk
        [((cumulative_simpson a.data.reverse dx).map Neg.neg).length]
        ((cumulative_simpson a.data.reverse dx).map Neg.neg).reverse)
    : Except Err NDArray)
    = Except.ok
      (NDArray.mk [a.data.length]
        ((cumulative_simpson a.data.reverse dx).map Neg.neg).reverse)
  rw [hlen]

theorem integrate_eq_reverse_neg_cumulative_simpson_witness :
    integrate ⟨[4], [1, 2, 3, 4]⟩ 1
      = .ok ⟨[4],
          ((cumulative_simpson ([1, 2, 3, 4] : List ℚ).reverse 1).map
            Neg.neg).reverse⟩ ∧
    ((cumulative_simpson ([1, 2, 3, 4] : List ℚ).reverse 1).map
      Neg.neg).reverse = [-15 / 2, -6, -7 / 2, 0] :=
  ⟨integrate_eq_reverse_neg_cumulative_simpson ⟨[4], [1, 2, 3, 4]⟩ 1 rfl,
    by norm_num [cumulative_simpson, simpson_subinterval, List.range_succ,
      List.getD]⟩

/-- C2: the DiagnosticsPipeline is exactly the composition of
`transverse_average` followed by `integrate`: whenever the reduction stage
succeeds on `F`, `longitudinal_profile F dx` equals `integrate` applied to
its result. -/
theorem longitudinal_profile_eq_composition (F : NDArray) (dx : ℚ)
    (p : NDArray) (h : transverse_average F = .ok p) :
    longitudinal_profile F dx = integrate p dx := by
  unfold longitudinal_profile
  rw [h]

theorem longitudinal_profile_eq_composition_witness :
    longitudinal_profile ⟨[2, 3], [1, 2, 3, 4, 5, 6]⟩ 1
      = integrate ⟨[2], [2, 5]⟩ 1 :=
  longitudinal_profile_eq_composition ⟨[2, 3], [1, 2, 3, 4, 5, 6]⟩ 1
    ⟨[2], [2, 5]⟩ (by norm_num [transverse_average, List.range_succ])

/-- C3: on a 2D array of shape `(r, c)`, `transverse_average` returns the 1D
array of shape `(r,)` whose `i`-th entry is the arithmetic mean of row `i`. -/
theorem transverse_average_rowwise_mean (a : NDArray) (r c : ℕ)
    (h : a.shape = [r, c]) (h2 : a.data.length = r * c) :
    transverse_average a
      = .ok ⟨[r], (List.range r).map fun i => mean (rowOf a c i)⟩ := by
  unfold transverse_average
  rw [if_neg (by rw [h]; simp)]
  have hr : a.shape.getD 0 0 = r := by rw [h]; rfl
  have hc : a.shape.getD 1 0 = c := by rw [h]; rfl
  show (Except.ok
      (NDArray.mk [a.shape.getD 0 0]
        ((List.range (a.shape.getD 0 0)).map fun i =>
          ((a.data.drop (i * a.shape.getD 1 0)).take (a.shape.getD 1 0)).sum
            / (a.shape.getD 1 0 : ℚ)))
    : Except Err NDArray)
    = Except.ok
      (NDArray.mk [r] ((List.range r).map fun i => mean (rowOf a c i)))
  rw [hr, hc]
  refine congrArg (fun d => Except.ok (NDArray.mk [r] d))
    (List.map_congr_left fun i hi => ?_)
  rw [List.mem_range] at hi
  have hlen : ((a.data.drop (i * c)).take c).length = c := by
    rw [List.length_take, List.length_drop, h2]
    have h1c : 1 * c ≤ (r - i) * c := Nat.mul_le_mul_right c (by omega)
    rw [one_mul, Nat.sub_mul] at h1c
    exact Nat.min_eq_left h1c
  simp only [mean, rowOf]
  rw [hlen]

theorem transverse_average_rowwise_mean_witness :
    transverse_average ⟨[2, 3], [1, 2, 3, 4, 5, 6]⟩
      = .ok ⟨[2], (List.range 2).map fun i =>
          mean (rowOf ⟨[2, 3], [1, 2, 3, 4, 5, 6]⟩ 3 i)⟩ ∧
    (List.range 2).map
        (fun i => mean (rowOf ⟨[2, 3], [1, 2, 3, 4, 5, 6]⟩ 3 i))
      = [2, 5] :=
  ⟨transverse_average_rowwise_mean ⟨[2, 3], [1, 2, 3, 4, 5, 6]⟩ 2 3 rfl rfl,
    by norm_num [mean, rowOf, List.range_succ]⟩

/-- C9: `integrate` applied to a profile of length exactly 1 returns the
single-element array `[0]`, for every spacing. -/
theorem integrate_singleton_zero (a : NDArray) (dx : ℚ)
    (h1 : a.shape.length = 1) (h2 : a.data.length = 1) :
    integrate a dx = .ok ⟨[1], [0]⟩ := by
  obtain ⟨v, hv⟩ := List.length_eq_one.mp h2
  unfold integrate
  rw [if_neg (by omega)]
  show (Except.ok
      (NDArray.mk
        [((cumulative_simpson a.data.reverse dx).map Neg.neg).length]
        ((cumulative_simpson a.data.reverse dx).map Neg.neg).reverse)
    : Except Err NDArray)
    = Except.ok (NDArray.mk [1] [0])
  rw [hv, List.reverse_singleton]
  simp [cumulative_simpson]

theorem integrate_singleton_zero_witness :
    integrate ⟨[1], [7]⟩ 2 = .ok ⟨[1], [0]⟩ :=
  integrate_singleton_zero ⟨[1], [7]⟩ 2 rfl rfl

/-- C10: on every rank-1 profile with at least two samples, `integrate`
returns an array of exactly the input's length whose last element is 0: the
accumulator starts at zero at the rightmost sample whatever the values. -/
theorem integrate_preserves_length_last_zero (a : NDArray) (dx : ℚ)
    (h1 : a.shape.length = 1) (h2 : 2 ≤ a.data.length) :
    (integrate a dx).map (fun out => (out.data.length, out.data.getLast?))
      = .ok (a.data.length, some 0) := by
  unfold integrate
  rw [if_neg (by omega)]
  show (Except.ok
      (((cumulative_simpson a.data.reverse dx).map Neg.neg).reverse.length,
        ((cumulative_simpson a.data.reverse dx).map Neg.neg).reverse.getLast?)
    : Except Err (ℕ × Option ℚ))
    = Except.ok (a.data.length, some 0)
  have hl : ((cumulative_simpson a.data.reverse dx).map
      Neg.neg).reverse.length = a.data.length := by
    rw [List.length_reverse, List.length_map, cumulative_simpson_length,
      List.length_reverse]
  have hlast : ((cumulative_simpson a.data.reverse dx).map
      Neg.neg).reverse.getLast? = some 0 := by
    rw [List.getLast?_reverse, List.head?_map,
      cumulative_simpson_head _ dx (by rw [List.length_reverse]; omega)]
    simp
  rw [hl, hlast]

theorem integrate_preserves_length_last_zero_witness :
    (integrate ⟨[4], [1, 2, 3, 4]⟩ 1).map
        (fun out => (out.data.length, out.data.getLast?))
      = .ok (4, some 0) :=
  integrate_preserves_length_last_zero ⟨[4], [1, 2, 3, 4]⟩ 1 rfl
    (by norm_num)
